import Mathlib

/-
Verification of the trajectory computation and sampling engine of the
satrack repository.

The engine (App.tsx, the SampledPositionProperty variant) maps each
two-line element set to a sampled trajectory: for i = 0..3 it propagates
the element set at start + i hours, converts the inertial position to a
geodetic coordinate, converts the height from kilometers to meters, and
adds the (time, longitude, latitude, height) sample; the resulting entity
list replaces the published one in a single state update.

External capabilities (satellite.js propagation and frame conversions) are
parameters of the embedding: the engine only composes them.  JavaScript
number values entering the pipeline are modelled by `FVal`: either a
finite rational or a non-finite value (NaN or an infinity), so that the
presence or absence of finiteness checks in the source is expressible.
Times are rationals, in seconds.
-/

/-- A JavaScript number as seen by the pipeline: finite (an exact
rational) or non-finite (NaN or an infinity). -/
inductive FVal where
  | fin (q : ℚ)
  | nonfinite
deriving DecidableEq

/-- An Earth-centered-inertial position as returned by the propagation
capability: three number components, any of which may be non-finite. -/
structure EciVec where
  x : FVal
  y : FVal
  z : FVal
deriving DecidableEq

/-- A geodetic coordinate as returned by the external eciToGeodetic:
longitude and latitude in radians, height in kilometers. -/
structure GeoPos where
  longitude : FVal
  latitude : FVal
  height : FVal
deriving DecidableEq

/-- The coordinate triple handed to the renderer (the arguments of
Cartesian3.fromDegrees): longitude and latitude in degrees, height in
meters. -/
structure RenderCoord where
  longitude : FVal
  latitude : FVal
  height : FVal
deriving DecidableEq

/-- One record of the element-set source (App.tsx interface TleData). -/
structure TleData where
  name : String
  line1 : String
  line2 : String
deriving DecidableEq

/-- The external capabilities the engine composes (satellite.js).  `Satrec`
is the abstract type of parsed element sets; `propagate` returns the
`position` member of satellite.js's result, which is either an object of
three numbers or `false` — modelled as `Option EciVec`, so the source's
`positionEci && typeof positionEci === "object"` guard is the `some`
match. -/
structure ExternalCaps (Satrec : Type) where
  twoline2satrec : String → String → Satrec
  propagate : Satrec → ℚ → Option EciVec
  gstime : ℚ → ℚ
  eciToGeodetic : EciVec → ℚ → GeoPos
  degreesLong : FVal → FVal
  degreesLat : FVal → FVal

/-- Height unit conversion of the source: `positionGd.height * 1000`
(kilometers to meters), applied to the number as-is. -/
def kmToMeters : FVal → FVal
  | FVal.fin h => FVal.fin (h * 1000)
  | FVal.nonfinite => FVal.nonfinite

/-- One sample of a trajectory: the epoch time and the converted render
coordinate (App.tsx `positionProperty.addSample(time, position)`). -/
structure Sample where
  time : ℚ
  position : RenderCoord
deriving DecidableEq

/-- The body of the sampling loop (App.tsx lines 133–149): propagate at
`time`; when the position is present, convert it via gstime/eciToGeodetic,
convert degrees and height units, and yield the sample; when it is absent
(`false`), yield nothing. -/
def sampleAt {S : Type} (ext : ExternalCaps S) (satrec : S) (time : ℚ) : Option Sample :=
  match ext.propagate satrec time with
  | none => none
  | some positionEci =>
      let gmst := ext.gstime time
      let positionGd := ext.eciToGeodetic positionEci gmst
      some { time := time
             position := { longitude := ext.degreesLong positionGd.longitude
                           latitude := ext.degreesLat positionGd.latitude
                           height := kmToMeters positionGd.height } }

/-- The sampling loop of `calculateSatellitePositions` (App.tsx lines
128–150), with the loop's constants — sample count 4 and one-hour
spacing — exposed as the spec's `sampleCount` and `sampleSpacing`
parameters.  Failed instants are skipped: the sample list keeps only the
successful epochs, in loop order. -/
def buildTrajectory {S : Type} (ext : ExternalCaps S) (elementSet : TleData)
    (windowStart sampleSpacing : ℚ) (sampleCount : ℕ) : List Sample :=
  let satrec := ext.twoline2satrec elementSet.line1 elementSet.line2
  (List.range sampleCount).filterMap
    (fun (i : ℕ) => sampleAt ext satrec (windowStart + sampleSpacing * (i : ℚ)))

/-- A published entity: a name and its sampled trajectory (App.tsx
interface SatelliteEntity, the SampledPositionProperty being its sample
list). -/
structure SatelliteEntity where
  name : String
  position : List Sample
deriving DecidableEq

/-- The refresh step `calculateSatellitePositions` (App.tsx lines
124–160) as a state transformation on the published entity list: when
`tleData` is absent the early return keeps the published state; otherwise
every record is mapped to an entity whose trajectory is the source's
fixed-parameter build (4 samples, one-hour spacing from `start`), and the
resulting list replaces the published state (`setSatelliteEntities`). -/
def calculateSatellitePositions {S : Type} (ext : ExternalCaps S) (start : ℚ)
    (tleData : Option (List TleData)) (satelliteEntities : List SatelliteEntity) :
    List SatelliteEntity :=
  match tleData with
  | none => satelliteEntities
  | some records =>
      records.map (fun td =>
        { name := td.name
          position := buildTrajectory ext td start 3600 4 })

/-- The epoch timestamps of a trajectory, in build order. -/
def sampleTimes (trajectory : List Sample) : List ℚ :=
  trajectory.map Sample.time

/-- Concrete capability instance on which every propagation succeeds with
a finite position. -/
def extOK : ExternalCaps Unit :=
  { twoline2satrec := fun _ _ => ()
    propagate := fun _ t => some { x := FVal.fin t, y := FVal.fin 0, z := FVal.fin 1 }
    gstime := fun t => t
    eciToGeodetic := fun e _ => { longitude := e.x, latitude := e.y, height := e.z }
    degreesLong := fun v => v
    degreesLat := fun v => v }

/-- Concrete capability instance on which every propagation fails (the
`position` member is `false`). -/
def extFail : ExternalCaps Unit :=
  { twoline2satrec := fun _ _ => ()
    propagate := fun _ _ => none
    gstime := fun t => t
    eciToGeodetic := fun e _ => { longitude := e.x, latitude := e.y, height := e.z }
    degreesLong := fun v => v
    degreesLat := fun v => v }

/-- Concrete capability instance on which propagation returns a position
object all of whose components are non-finite (as satellite.js does for a
decayed orbit). -/
def extNaN : ExternalCaps Unit :=
  { twoline2satrec := fun _ _ => ()
    propagate := fun _ _ => some { x := FVal.nonfinite, y := FVal.nonfinite, z := FVal.nonfinite }
    gstime := fun t => t
    eciToGeodetic := fun e _ => { longitude := e.x, latitude := e.y, height := e.z }
    degreesLong := fun v => v
    degreesLat := fun v => v }

/-- A sample element-set record. -/
def tleSAT1 : TleData :=
  { name := "SAT-1", line1 := "L1", line2 := "L2" }

/-- Unfolding of `buildTrajectory` to its loop. -/
theorem buildTrajectory_eq {S : Type} (ext : ExternalCaps S) (td : TleData)
    (ws sp : ℚ) (n : ℕ) :
    buildTrajectory ext td ws sp n =
      (List.range n).filterMap
        (fun (i : ℕ) => sampleAt ext (ext.twoline2satrec td.line1 td.line2) (ws + sp * (i : ℚ))) := rfl

/-- A failed propagation yields no sample. -/
theorem sampleAt_none {S : Type} (ext : ExternalCaps S) (sat : S) (t : ℚ)
    (hp : ext.propagate sat t = none) : sampleAt ext sat t = none := by
  simp [sampleAt, hp]

/-- A successful propagation yields the sample at the loop's time, with the
converted coordinate. -/
theorem sampleAt_some {S : Type} (ext : ExternalCaps S) (sat : S) (t : ℚ) (e : EciVec)
    (hp : ext.propagate sat t = some e) :
    sampleAt ext sat t =
      some { time := t
             position := { longitude := ext.degreesLong (ext.eciToGeodetic e (ext.gstime t)).longitude
                           latitude := ext.degreesLat (ext.eciToGeodetic e (ext.gstime t)).latitude
                           height := kmToMeters (ext.eciToGeodetic e (ext.gstime t)).height } } := by
  simp [sampleAt, hp]

/-- A successful sample carries the loop's time. -/
theorem sampleAt_time {S : Type} (ext : ExternalCaps S) (sat : S) (t : ℚ) (s : Sample)
    (h : sampleAt ext sat t = some s) : s.time = t := by
  cases hp : ext.propagate sat t with
  | none => rw [sampleAt_none ext sat t hp] at h; cases h
  | some e =>
      rw [sampleAt_some ext sat t e hp, Option.some.injEq] at h
      rw [← h]

/-- The epoch times of a filterMap of sample attempts are the attempt
times at which propagation succeeded, in order. -/
theorem sampleTimes_filterMap {S : Type} (ext : ExternalCaps S) (sat : S) (f : ℕ → ℚ) :
    ∀ l : List ℕ,
      sampleTimes (l.filterMap (fun (i : ℕ) => sampleAt ext sat (f i))) =
        (l.filter (fun (i : ℕ) => (ext.propagate sat (f i)).isSome)).map f
  | [] => rfl
  | a :: l => by
      have ih := sampleTimes_filterMap ext sat f l
      cases hp : ext.propagate sat (f a) with
      | none =>
          rw [List.filterMap_cons, List.filter_cons, sampleAt_none ext sat (f a) hp, hp]
          simpa using ih
      | some e =>
          rw [List.filterMap_cons, List.filter_cons, sampleAt_some ext sat (f a) e hp, hp]
          simp only [Option.isSome_some, if_pos]
          simp only [sampleTimes, List.map_cons] at ih ⊢
          rw [ih]

/-- The epoch times of a built trajectory: the loop times of the indices
at which propagation succeeded. -/
theorem sampleTimes_build {S : Type} (ext : ExternalCaps S) (td : TleData)
    (ws sp : ℚ) (n : ℕ) :
    sampleTimes (buildTrajectory ext td ws sp n) =
      ((List.range n).filter
          (fun (i : ℕ) =>
            (ext.propagate (ext.twoline2satrec td.line1 td.line2) (ws + sp * (i : ℚ))).isSome)).map
        (fun (i : ℕ) => ws + sp * (i : ℚ)) := by
  rw [buildTrajectory_eq]
  exact sampleTimes_filterMap ext (ext.twoline2satrec td.line1 td.line2)
    (fun (i : ℕ) => ws + sp * (i : ℚ)) (List.range n)

/-- C1: for every element set and window parameters, `buildTrajectory`
samples at times `windowStart + i * sampleSpacing` for `i` below
`sampleCount`, appending the converted position for each successful
propagation and skipping a failed instant without aborting; the epoch
timestamps are strictly increasing and lie within
`[windowStart, windowStart + (sampleCount-1) * sampleSpacing]`; with
`windowStart = 0`, `sampleCount = 4`, `sampleSpacing = 3600` and every
propagation succeeding, the epochs are exactly `0, 3600, 7200, 10800`. -/
theorem buildTrajectory_window_spec {S : Type} (ext : ExternalCaps S) (elementSet : TleData)
    (windowStart sampleSpacing : ℚ) (sampleCount : ℕ) (hsp : 0 < sampleSpacing) :
    List.Pairwise (fun a b => a < b)
        (sampleTimes (buildTrajectory ext elementSet windowStart sampleSpacing sampleCount))
    ∧ (∀ t ∈ sampleTimes (buildTrajectory ext elementSet windowStart sampleSpacing sampleCount),
        windowStart ≤ t ∧ t ≤ windowStart + ((sampleCount - 1 : ℕ) : ℚ) * sampleSpacing)
    ∧ (∀ i : ℕ, i < sampleCount → ∀ s : Sample,
        sampleAt ext (ext.twoline2satrec elementSet.line1 elementSet.line2)
            (windowStart + sampleSpacing * (i : ℚ)) = some s →
          s ∈ buildTrajectory ext elementSet windowStart sampleSpacing sampleCount
          ∧ s.time = windowStart + sampleSpacing * (i : ℚ))
    ∧ (∀ i : ℕ, i < sampleCount →
        ext.propagate (ext.twoline2satrec elementSet.line1 elementSet.line2)
            (windowStart + sampleSpacing * (i : ℚ)) = none →
          (windowStart + sampleSpacing * (i : ℚ)) ∉
            sampleTimes (buildTrajectory ext elementSet windowStart sampleSpacing sampleCount))
    ∧ ((∀ i : ℕ, i < 4 →
          (ext.propagate (ext.twoline2satrec elementSet.line1 elementSet.line2)
              ((0 : ℚ) + 3600 * (i : ℚ))).isSome = true) →
        sampleTimes (buildTrajectory ext elementSet 0 3600 4) = [0, 3600, 7200, 10800]) := by
  refine ⟨?_, ?_, ?_, ?_, ?_⟩
  · rw [sampleTimes_build]
    refine List.Pairwise.map _ ?_
        (List.Pairwise.sublist (List.filter_sublist _) (List.pairwise_lt_range sampleCount))
    intro a b hab
    have hc : (a : ℚ) < (b : ℚ) := by exact_mod_cast hab
    exact add_lt_add_left (mul_lt_mul_of_pos_left hc hsp) windowStart
  · rw [sampleTimes_build]
    intro t ht
    rw [List.mem_map] at ht
    obtain ⟨i, hi, rfl⟩ := ht
    have hin : i < sampleCount := List.mem_range.1 (List.mem_filter.1 hi).1
    constructor
    · exact le_add_of_nonneg_right (mul_nonneg hsp.le (Nat.cast_nonneg i))
    · have hle : i ≤ sampleCount - 1 := by omega
      have hc : (i : ℚ) ≤ ((sampleCount - 1 : ℕ) : ℚ) := by exact_mod_cast hle
      have := mul_le_mul_of_nonneg_left hc hsp.le
      rw [mul_comm ((sampleCount - 1 : ℕ) : ℚ) sampleSpacing]
      exact add_le_add_left this windowStart
  · intro i hi s hs
    refine ⟨?_, sampleAt_time ext _ _ s hs⟩
    rw [buildTrajectory_eq, List.mem_filterMap]
    exact ⟨i, List.mem_range.2 hi, hs⟩
  · intro i hi hnone hmem
    rw [sampleTimes_build, List.mem_map] at hmem
    obtain ⟨j, hj, hje⟩ := hmem
    have hsp' : sampleSpacing ≠ 0 := ne_of_gt hsp
    have hji : (j : ℚ) = (i : ℚ) :=
      mul_left_cancel₀ hsp' (by linarith [hje])
    have : j = i := by exact_mod_cast hji
    subst this
    have hsome := (List.mem_filter.1 hj).2
    rw [hnone] at hsome
    simp at hsome
  · intro hall
    rw [sampleTimes_build]
    have hfe : (List.range 4).filter
        (fun (i : ℕ) =>
          (ext.propagate (ext.twoline2satrec elementSet.line1 elementSet.line2)
              ((0 : ℚ) + 3600 * (i : ℚ))).isSome) = List.range 4 :=
      List.filter_eq_self.2 (fun a ha => hall a (List.mem_range.1 ha))
    rw [hfe]
    norm_num [List.range_succ]

/-- Concrete instance of `buildTrajectory_window_spec`: the all-succeeding
capabilities, the SAT-1 record and the window 0, 3600, 4. -/
theorem buildTrajectory_window_spec_witness :
    List.Pairwise (fun a b => a < b)
        (sampleTimes (buildTrajectory extOK tleSAT1 0 3600 4))
    ∧ (∀ t ∈ sampleTimes (buildTrajectory extOK tleSAT1 0 3600 4),
        (0 : ℚ) ≤ t ∧ t ≤ 0 + ((4 - 1 : ℕ) : ℚ) * 3600)
    ∧ (∀ i : ℕ, i < 4 → ∀ s : Sample,
        sampleAt extOK (extOK.twoline2satrec tleSAT1.line1 tleSAT1.line2)
            (0 + 3600 * (i : ℚ)) = some s →
          s ∈ buildTrajectory extOK tleSAT1 0 3600 4 ∧ s.time = 0 + 3600 * (i : ℚ))
    ∧ (∀ i : ℕ, i < 4 →
        extOK.propagate (extOK.twoline2satrec tleSAT1.line1 tleSAT1.line2)
            (0 + 3600 * (i : ℚ)) = none →
          (0 + 3600 * (i : ℚ)) ∉ sampleTimes (buildTrajectory extOK tleSAT1 0 3600 4))
    ∧ ((∀ i : ℕ, i < 4 →
          (extOK.propagate (extOK.twoline2satrec tleSAT1.line1 tleSAT1.line2)
              ((0 : ℚ) + 3600 * (i : ℚ))).isSome = true) →
        sampleTimes (buildTrajectory extOK tleSAT1 0 3600 4) = [0, 3600, 7200, 10800]) :=
  buildTrajectory_window_spec extOK tleSAT1 0 3600 4 (by norm_num)

/-- C10: the sampled implementation fixes the sampling parameters — every
refresh maps each record to the 4-sample, 3600-second build from the
captured start, so every published trajectory has at most 4 epochs, all
within 3 hours of that start, for every element set and every capability
instance (`calculateSatellitePositions` takes no clock input at all). -/
theorem sampling_parameters_fixed {S : Type} (ext : ExternalCaps S) (start : ℚ)
    (tle : List TleData) (prev : List SatelliteEntity) :
    calculateSatellitePositions ext start (some tle) prev =
      tle.map (fun td =>
        { name := td.name, position := buildTrajectory ext td start 3600 4 })
    ∧ (∀ e ∈ calculateSatellitePositions ext start (some tle) prev,
        e.position.length ≤ 4
        ∧ ∀ s ∈ e.position, start ≤ s.time ∧ s.time ≤ start + 3 * 3600) := by
  refine ⟨rfl, ?_⟩
  intro e he
  simp only [calculateSatellitePositions, List.mem_map] at he
  obtain ⟨td, htd, rfl⟩ := he
  constructor
  · rw [buildTrajectory_eq]
    simpa using List.length_filterMap_le _ (List.range 4)
  · intro s hs
    rw [buildTrajectory_eq, List.mem_filterMap] at hs
    obtain ⟨i, hi, hsa⟩ := hs
    have ht := sampleAt_time _ _ _ _ hsa
    have hi4 : i < 4 := List.mem_range.1 hi
    have hci : (i : ℚ) ≤ 3 := by exact_mod_cast Nat.le_of_lt_succ hi4
    rw [ht]
    constructor
    · have : (0 : ℚ) ≤ 3600 * (i : ℚ) := by positivity
      linarith
    · have : (3600 : ℚ) * (i : ℚ) ≤ 3600 * 3 := by linarith
      linarith

/-- C4 (amended): an element set for which zero epochs succeed is still
included in the published set, with an empty trajectory; every record of
the refresh appears in the published list, and the refresh still
publishes. -/
theorem zeroEpoch_object_still_published {S : Type} (ext : ExternalCaps S) (start : ℚ)
    (tle : List TleData) (prev : List SatelliteEntity) :
    (calculateSatellitePositions ext start (some tle) prev).map SatelliteEntity.name =
      tle.map TleData.name
    ∧ (∀ td ∈ tle,
        ({ name := td.name, position := buildTrajectory ext td start 3600 4 } : SatelliteEntity) ∈
          calculateSatellitePositions ext start (some tle) prev) := by
  constructor
  · simp [calculateSatellitePositions, List.map_map, Function.comp]
  · intro td htd
    exact List.mem_map_of_mem _ htd

/-- C4 counterexample: with every propagation failing, the lone object is
not omitted — the published set still contains it, carrying an empty
trajectory. -/
theorem zeroEpoch_object_not_omitted :
    (∀ t : ℚ, extFail.propagate () t = none)
    ∧ calculateSatellitePositions extFail 0 (some [tleSAT1]) [] =
        [{ name := "SAT-1", position := [] }]
    ∧ calculateSatellitePositions extFail 0 (some [tleSAT1]) [] ≠ [] := by
  refine ⟨fun t => rfl, rfl, ?_⟩
  intro h
  exact List.cons_ne_nil _ _ h

/-- C5: every sample of a built trajectory carries the height the
propagation pipeline produced for its epoch, converted from kilometers to
meters; on a finite height the conversion is multiplication by 1000. -/
theorem sample_height_km_to_meters {S : Type} (ext : ExternalCaps S) (td : TleData)
    (ws sp : ℚ) (n : ℕ) :
    (∀ s ∈ buildTrajectory ext td ws sp n,
      ∃ e : EciVec,
        ext.propagate (ext.twoline2satrec td.line1 td.line2) s.time = some e
        ∧ s.position.height =
            kmToMeters ((ext.eciToGeodetic e (ext.gstime s.time)).height))
    ∧ (∀ h : ℚ, kmToMeters (FVal.fin h) = FVal.fin (1000 * h)) := by
  constructor
  · intro s hs
    rw [buildTrajectory_eq, List.mem_filterMap] at hs
    obtain ⟨i, _, hsa⟩ := hs
    cases hp : ext.propagate (ext.twoline2satrec td.line1 td.line2) (ws + sp * (i : ℚ)) with
    | none => rw [sampleAt_none _ _ _ hp] at hsa; cases hsa
    | some e =>
        rw [sampleAt_some _ _ _ e hp, Option.some.injEq] at hsa
        refine ⟨e, ?_, ?_⟩
        · rw [← hsa]
          exact hp
        · rw [← hsa]
  · intro h
    rw [kmToMeters, mul_comm]

/-- C6 (amended): the sampling guard skips an instant exactly when the
propagation yields no position object — finiteness of the components is
not checked — and a skipped instant only removes its own epoch: the built
trajectory's times are exactly the loop times whose propagation
succeeded. -/
theorem sample_guard_presence_only {S : Type} (ext : ExternalCaps S) (sat : S) (t : ℚ)
    (td : TleData) (ws sp : ℚ) (n : ℕ) :
    ((sampleAt ext sat t).isSome = (ext.propagate sat t).isSome)
    ∧ sampleTimes (buildTrajectory ext td ws sp n) =
        ((List.range n).filter
            (fun (i : ℕ) =>
              (ext.propagate (ext.twoline2satrec td.line1 td.line2)
                  (ws + sp * (i : ℚ))).isSome)).map
          (fun (i : ℕ) => ws + sp * (i : ℚ)) := by
  constructor
  · cases hp : ext.propagate sat t with
    | none => rw [sampleAt_none ext sat t hp]; rfl
    | some e => rw [sampleAt_some ext sat t e hp]; rfl
  · exact sampleTimes_build ext td ws sp n

/-- C6 counterexample: a position object all of whose components are
non-finite passes the guard — the conversion does not fail and the
instant still contributes a sample. -/
theorem nonfinite_position_still_sampled :
    extNaN.propagate () 0 =
      some { x := FVal.nonfinite, y := FVal.nonfinite, z := FVal.nonfinite }
    ∧ (sampleAt extNaN () 0).isSome = true := ⟨rfl, rfl⟩

/-- C7 (amended): a refresh with no data keeps the published set
unchanged, but a refresh whose source yields zero records publishes the
empty set, replacing whatever was published before; no staleness
condition exists in the engine's state. -/
theorem empty_refresh_behavior {S : Type} (ext : ExternalCaps S) (start : ℚ)
    (prev : List SatelliteEntity) :
    calculateSatellitePositions ext start none prev = prev
    ∧ calculateSatellitePositions ext start (some []) prev = [] :=
  ⟨rfl, rfl⟩

/-- C7 counterexample: a zero-record refresh cycle does not leave the
previously published non-empty set unchanged — it replaces it with the
empty set. -/
theorem empty_refresh_clobbers_published :
    calculateSatellitePositions extFail 0 (some [])
        [{ name := "SAT-1", position := [] }] = []
    ∧ calculateSatellitePositions extFail 0 (some [])
          [{ name := "SAT-1", position := [] }] ≠
        [{ name := "SAT-1", position := [] }] := by
  refine ⟨rfl, ?_⟩
  intro h
  exact List.noConfusion h

/-- A Cartesian position in the render frame, with exact rational
components, as interpolation operates on it. -/
@[ext]
structure QVec3 where
  x : ℚ
  y : ℚ
  z : ℚ
deriving DecidableEq

/-- One epoch of a sampled trajectory as the interpolation sees it. -/
structure Epoch where
  time : ℚ
  pos : QVec3
deriving DecidableEq

/-- Linear interpolation between two rationals at parameter θ. -/
def lerpQ (a b θ : ℚ) : ℚ := a + θ * (b - a)

/-- Componentwise linear interpolation between two positions. -/
def lerpV (p q : QVec3) (θ : ℚ) : QVec3 :=
  { x := lerpQ p.x q.x θ, y := lerpQ p.y q.y θ, z := lerpQ p.z q.z θ }

/-- Modelled from the spec: the continuous position query of the external
SampledPositionProperty (the repository delegates `positionAt` to the
rendering library, whose code is not among the sources).  Per the spec's
words it is piecewise-linear interpolation between the two bracketing
epochs, returning the stored position at an epoch time and clamping to
the nearest boundary epoch outside the sampled window.  `positionAtFrom`
walks the epoch list from its first element. -/
def positionAtFrom (e : Epoch) (rest : List Epoch) (t : ℚ) : QVec3 :=
  match rest with
  | [] => e.pos
  | e' :: rest' =>
      if t ≤ e.time then e.pos
      else if t < e'.time then
        lerpV e.pos e'.pos ((t - e.time) / (e'.time - e.time))
      else positionAtFrom e' rest' t

/-- Modelled from the spec: the continuous position query over a
trajectory's epoch list; an empty trajectory has no position. -/
def positionAt : List Epoch → ℚ → Option QVec3
  | [], _ => none
  | e :: rest, t => some (positionAtFrom e rest t)

/-- A point strictly between two positions: a proper convex combination
distinct from both. -/
def strictlyBetween (a m b : QVec3) : Prop :=
  (∃ θ : ℚ, 0 < θ ∧ θ < 1 ∧ m = lerpV a b θ) ∧ m ≠ a ∧ m ≠ b

/-- Queries at or before the first epoch's time return its position. -/
theorem positionAtFrom_head_le (e : Epoch) (rest : List Epoch) (t : ℚ)
    (h : t ≤ e.time) : positionAtFrom e rest t = e.pos := by
  cases rest with
  | nil => rfl
  | cons e' rest' => simp [positionAtFrom, h]

/-- A query past the second epoch's time walks past the first epoch. -/
theorem positionAtFrom_skip (e e' : Epoch) (rest : List Epoch) (t : ℚ)
    (h1 : e.time < t) (h2 : e'.time ≤ t) :
    positionAtFrom e (e' :: rest) t = positionAtFrom e' rest t := by
  simp [positionAtFrom, not_le.2 h1, not_lt.2 h2]

/-- A query strictly between the first two epoch times interpolates
between them. -/
theorem positionAtFrom_lerp (e e' : Epoch) (rest : List Epoch) (t : ℚ)
    (h1 : e.time < t) (h2 : t < e'.time) :
    positionAtFrom e (e' :: rest) t =
      lerpV e.pos e'.pos ((t - e.time) / (e'.time - e.time)) := by
  simp [positionAtFrom, not_le.2 h1, h2]

/-- In a sorted epoch list, every element before a split point is
earlier than it. -/
theorem time_lt_of_mem_pre : ∀ (pre : List Epoch) (e : Epoch) (rest : List Epoch),
    List.Chain' (fun a b => a.time < b.time) (pre ++ e :: rest) →
    ∀ x ∈ pre, x.time < e.time
  | [], _, _, _, x, hx => absurd hx (List.not_mem_nil x)
  | p :: pre', e, rest, hs, x, hx => by
      rcases List.mem_cons.1 hx with rfl | hx'
      · cases pre' with
        | nil => exact (List.chain'_cons.1 hs).1
        | cons q pre'' =>
            have h1 : x.time < q.time := (List.chain'_cons.1 hs).1
            have h2 : q.time < e.time :=
              time_lt_of_mem_pre (q :: pre'') e rest hs.tail q (List.mem_cons_self q pre'')
            exact lt_trans h1 h2
      · exact time_lt_of_mem_pre pre' e rest hs.tail x hx'

/-- A query no earlier than a split epoch's time is answered by the walk
starting at that epoch. -/
theorem positionAt_through : ∀ (pre : List Epoch) (e : Epoch) (rest : List Epoch) (t : ℚ),
    List.Chain' (fun a b => a.time < b.time) (pre ++ e :: rest) →
    e.time ≤ t →
    positionAt (pre ++ e :: rest) t = some (positionAtFrom e rest t)
  | [], _, _, _, _, _ => rfl
  | [p], e, rest, t, hs, ht => by
      have hpe : p.time < e.time := (List.chain'_cons.1 hs).1
      show some (positionAtFrom p (e :: rest) t) = _
      rw [positionAtFrom_skip p e rest t (lt_of_lt_of_le hpe ht) ht]
  | p :: q :: pre'', e, rest, t, hs, ht => by
      have hpq : p.time < q.time := (List.chain'_cons.1 hs).1
      have hqe : q.time < e.time :=
        time_lt_of_mem_pre (q :: pre'') e rest hs.tail q (List.mem_cons_self q pre'')
      have hqt : q.time ≤ t := le_of_lt (lt_of_lt_of_le hqe ht)
      have hpt : p.time < t := lt_of_lt_of_le hpq hqt
      show some (positionAtFrom p (q :: (pre'' ++ e :: rest)) t) = _
      rw [positionAtFrom_skip p q (pre'' ++ e :: rest) t hpt hqt]
      exact positionAt_through (q :: pre'') e rest t hs.tail ht

/-- The first epoch of a sorted list is no later than the last. -/
theorem last_time_ge : ∀ (rest : List Epoch) (e : Epoch),
    List.Chain' (fun a b => a.time < b.time) (e :: rest) →
    e.time ≤ (rest.getLastD e).time
  | [], _, _ => le_refl _
  | e' :: rest', e, hs => by
      rw [List.getLastD_cons]
      have h1 : e.time < e'.time := (List.chain'_cons.1 hs).1
      have h2 := last_time_ge rest' e' (List.chain'_cons.1 hs).2
      exact le_of_lt (lt_of_lt_of_le h1 h2)

/-- A query at or past the last epoch's time returns the last epoch's
position. -/
theorem positionAtFrom_last : ∀ (rest : List Epoch) (e : Epoch) (t : ℚ),
    List.Chain' (fun a b => a.time < b.time) (e :: rest) →
    (rest.getLastD e).time ≤ t →
    positionAtFrom e rest t = (rest.getLastD e).pos
  | [], _, _, _, _ => rfl
  | e' :: rest', e, t, hs, ht => by
      rw [List.getLastD_cons] at ht ⊢
      have h1 : e.time < e'.time := (List.chain'_cons.1 hs).1
      have hs' := (List.chain'_cons.1 hs).2
      have h2 : e'.time ≤ (rest'.getLastD e').time := last_time_ge rest' e' hs'
      have het : e'.time ≤ t := le_trans h2 ht
      rw [positionAtFrom_skip e e' rest' t (lt_of_lt_of_le h1 het) het]
      exact positionAtFrom_last rest' e' t hs' ht

/-- A proper interpolation with distinct endpoints lands on neither. -/
theorem lerpQ_eq_left (a b θ : ℚ) (hθ : θ ≠ 0) (h : lerpQ a b θ = a) : b = a := by
  rw [lerpQ] at h
  have hz : θ * (b - a) = 0 := by linarith
  rcases mul_eq_zero.1 hz with h' | h'
  · exact absurd h' hθ
  · linarith

/-- A proper interpolation reaching the right endpoint forces equal
endpoints. -/
theorem lerpQ_eq_right (a b θ : ℚ) (hθ : θ ≠ 1) (h : lerpQ a b θ = b) : b = a := by
  rw [lerpQ] at h
  have hz : (θ - 1) * (b - a) = 0 := by ring_nf; linarith
  rcases mul_eq_zero.1 hz with h' | h'
  · exact absurd (by linarith) hθ
  · linarith

/-- With distinct endpoints, a proper convex combination is distinct from
both endpoints. -/
theorem lerpV_ne_endpoints (a b : QVec3) (θ : ℚ) (h0 : θ ≠ 0) (h1 : θ ≠ 1)
    (hne : a ≠ b) : lerpV a b θ ≠ a ∧ lerpV a b θ ≠ b := by
  constructor
  · intro h
    apply hne
    have hx := lerpQ_eq_left a.x b.x θ h0 (congrArg QVec3.x h)
    have hy := lerpQ_eq_left a.y b.y θ h0 (congrArg QVec3.y h)
    have hz := lerpQ_eq_left a.z b.z θ h0 (congrArg QVec3.z h)
    exact QVec3.ext hx.symm hy.symm hz.symm
  · intro h
    apply hne
    have hx := lerpQ_eq_right a.x b.x θ h1 (congrArg QVec3.x h)
    have hy := lerpQ_eq_right a.y b.y θ h1 (congrArg QVec3.y h)
    have hz := lerpQ_eq_right a.z b.z θ h1 (congrArg QVec3.z h)
    exact QVec3.ext hx.symm hy.symm hz.symm

/-- C2 (amended): on a sorted trajectory, `positionAt` returns the stored
position at every epoch time, and at a time strictly between two
consecutive epochs it returns their linear interpolation — a value
strictly between the two bracketing positions whenever those positions
differ. -/
theorem positionAt_lerp_law (epochs : List Epoch) (t : ℚ)
    (hs : List.Chain' (fun a b => a.time < b.time) epochs) :
    (∀ pre ep suf, epochs = pre ++ ep :: suf →
        positionAt epochs ep.time = some ep.pos)
    ∧ (∀ pre ek ek1 suf, epochs = pre ++ ek :: ek1 :: suf →
        ek.time < t → t < ek1.time →
        positionAt epochs t =
          some (lerpV ek.pos ek1.pos ((t - ek.time) / (ek1.time - ek.time)))
        ∧ (ek.pos ≠ ek1.pos →
            strictlyBetween ek.pos
              (lerpV ek.pos ek1.pos ((t - ek.time) / (ek1.time - ek.time))) ek1.pos)) := by
  constructor
  · intro pre ep suf h
    subst h
    rw [positionAt_through pre ep suf ep.time hs (le_refl _)]
    rw [positionAtFrom_head_le ep suf ep.time (le_refl _)]
  · intro pre ek ek1 suf h h1 h2
    subst h
    have hθ0 : 0 < (t - ek.time) / (ek1.time - ek.time) :=
      div_pos (by linarith) (by linarith)
    have hθ1 : (t - ek.time) / (ek1.time - ek.time) < 1 :=
      (div_lt_one (by linarith)).2 (by linarith)
    constructor
    · rw [positionAt_through pre ek (ek1 :: suf) t hs (le_of_lt h1)]
      rw [positionAtFrom_lerp ek ek1 suf t h1 h2]
    · intro hne
      have hne' := lerpV_ne_endpoints ek.pos ek1.pos _ (ne_of_gt hθ0) (ne_of_lt hθ1) hne
      exact ⟨⟨_, hθ0, hθ1, rfl⟩, hne'.1, hne'.2⟩

/-- Concrete instance of `positionAt_lerp_law`: the two-epoch trajectory
(0, (0,0,0)), (10, (2,0,0)) queried at t = 5. -/
theorem positionAt_lerp_law_witness :
    positionAt [{ time := 0, pos := { x := 0, y := 0, z := 0 } },
                { time := 10, pos := { x := 2, y := 0, z := 0 } }] 5 =
      some (lerpV { x := 0, y := 0, z := 0 } { x := 2, y := 0, z := 0 }
        ((5 - (0 : ℚ)) / (10 - (0 : ℚ))))
    ∧ (({ x := 0, y := 0, z := 0 } : QVec3) ≠ { x := 2, y := 0, z := 0 } →
        strictlyBetween { x := 0, y := 0, z := 0 }
          (lerpV { x := 0, y := 0, z := 0 } { x := 2, y := 0, z := 0 }
            ((5 - (0 : ℚ)) / (10 - (0 : ℚ))))
          { x := 2, y := 0, z := 0 }) :=
  (positionAt_lerp_law
      [{ time := 0, pos := { x := 0, y := 0, z := 0 } },
       { time := 10, pos := { x := 2, y := 0, z := 0 } }] 5
      (List.chain'_cons.2 ⟨by norm_num, List.chain'_singleton _⟩)).2
    [] { time := 0, pos := { x := 0, y := 0, z := 0 } }
    { time := 10, pos := { x := 2, y := 0, z := 0 } } [] rfl (by norm_num) (by norm_num)

/-- C2 counterexample: with equal bracketing positions the interpolated
value is not strictly between them — it coincides with both endpoints. -/
theorem positionAt_equal_endpoints_cex :
    positionAt [{ time := 0, pos := { x := 0, y := 0, z := 0 } },
                { time := 10, pos := { x := 0, y := 0, z := 0 } }] 5 =
      some { x := 0, y := 0, z := 0 }
    ∧ ¬ strictlyBetween { x := 0, y := 0, z := 0 } { x := 0, y := 0, z := 0 }
        { x := 0, y := 0, z := 0 } := by
  constructor
  · show some (positionAtFrom _ _ 5) = _
    rw [positionAtFrom_lerp _ _ _ 5 (by norm_num) (by norm_num)]
    simp [lerpV, lerpQ]
  · intro h
    exact h.2.1 rfl

/-- C3: on a sorted trajectory, queries before the first epoch's time
and after the last epoch's time clamp to the boundary epoch's position. -/
theorem positionAt_clamps (e : Epoch) (rest : List Epoch) (t : ℚ)
    (hs : List.Chain' (fun a b => a.time < b.time) (e :: rest)) :
    (t < e.time → positionAt (e :: rest) t = positionAt (e :: rest) e.time)
    ∧ ((rest.getLastD e).time < t →
        positionAt (e :: rest) t = positionAt (e :: rest) (rest.getLastD e).time) := by
  constructor
  · intro hlt
    show some (positionAtFrom e rest t) = some (positionAtFrom e rest e.time)
    rw [positionAtFrom_head_le e rest t (le_of_lt hlt),
        positionAtFrom_head_le e rest e.time (le_refl _)]
  · intro hgt
    show some (positionAtFrom e rest t) = some (positionAtFrom e rest (rest.getLastD e).time)
    rw [positionAtFrom_last rest e t hs (le_of_lt hgt),
        positionAtFrom_last rest e (rest.getLastD e).time hs (le_refl _)]

/-- Concrete instance of `positionAt_clamps`: the two-epoch trajectory
(0, (1,2,3)), (10, (4,5,6)) queried at t = -5. -/
theorem positionAt_clamps_witness :
    ((-5 : ℚ) < ({ time := 0, pos := { x := 1, y := 2, z := 3 } } : Epoch).time →
      positionAt [{ time := 0, pos := { x := 1, y := 2, z := 3 } },
                  { time := 10, pos := { x := 4, y := 5, z := 6 } }] (-5) =
        positionAt [{ time := 0, pos := { x := 1, y := 2, z := 3 } },
                    { time := 10, pos := { x := 4, y := 5, z := 6 } }]
          ({ time := 0, pos := { x := 1, y := 2, z := 3 } } : Epoch).time)
    ∧ (([({ time := 10, pos := { x := 4, y := 5, z := 6 } } : Epoch)].getLastD
          { time := 0, pos := { x := 1, y := 2, z := 3 } }).time < (-5 : ℚ) →
        positionAt [{ time := 0, pos := { x := 1, y := 2, z := 3 } },
                    { time := 10, pos := { x := 4, y := 5, z := 6 } }] (-5) =
          positionAt [{ time := 0, pos := { x := 1, y := 2, z := 3 } },
                      { time := 10, pos := { x := 4, y := 5, z := 6 } }]
            ([({ time := 10, pos := { x := 4, y := 5, z := 6 } } : Epoch)].getLastD
              { time := 0, pos := { x := 1, y := 2, z := 3 } }).time) :=
  positionAt_clamps { time := 0, pos := { x := 1, y := 2, z := 3 } }
    [{ time := 10, pos := { x := 4, y := 5, z := 6 } }] (-5)
    (List.chain'_cons.2 ⟨by norm_num, List.chain'_singleton _⟩)

/-- The boundary policies of the rendering engine's clock. -/
inductive ClockRangeKind where
  | unbounded
  | clamped
  | loopStop
deriving DecidableEq

/-- The rendering engine's simulation clock state as the component
configures it. -/
structure CesiumClock where
  startTime : ℚ
  currentTime : ℚ
  clockRange : ClockRangeKind
  multiplier : ℚ
  shouldAnimate : Bool
deriving DecidableEq

/-- The clock configuration the component applies (App.tsx lines
166–170): start and current time at the captured start, UNBOUNDED range,
multiplier 1, animation on. -/
def configureClock (start : ℚ) : CesiumClock :=
  { startTime := start
    currentTime := start
    clockRange := ClockRangeKind.unbounded
    multiplier := 1
    shouldAnimate := true }

/-- Modelled from the spec: the advance step of the external rendering
engine's clock (its code is not among the repository's sources).  Per the
spec's words simulation time is derived from wall-clock deltas: an
animating clock advances `currentTime` by `multiplier` times the elapsed
wall-clock delta — the unbounded policy applies no clamping — and a
non-animating clock holds its time. -/
def tickClock (c : CesiumClock) (wallDelta : ℚ) : CesiumClock :=
  if c.shouldAnimate then
    { c with currentTime := c.currentTime + c.multiplier * wallDelta }
  else c

/-- A run of the clock over a sequence of wall-clock deltas, one entry
per observed instant (render callback or not). -/
def runClock (c : CesiumClock) (deltas : List ℚ) : CesiumClock :=
  deltas.foldl tickClock c

/-- An animating clock's time after a run is its time plus the scaled
total wall-clock time. -/
theorem runClock_currentTime : ∀ (ds : List ℚ) (c : CesiumClock),
    c.shouldAnimate = true →
    (runClock c ds).currentTime = c.currentTime + c.multiplier * ds.sum
  | [], c, _ => by simp [runClock]
  | d :: ds, c, h => by
      have ht : tickClock c d = { c with currentTime := c.currentTime + c.multiplier * d } := by
        rw [tickClock, if_pos h]
      have hstep : runClock c (d :: ds) = runClock (tickClock c d) ds := rfl
      rw [hstep, ht,
        runClock_currentTime ds { c with currentTime := c.currentTime + c.multiplier * d } h]
      simp only [List.sum_cons]
      ring

/-- C9: under the component's configuration (multiplier 1, unbounded
range, animation on), simulation time after any run equals the start plus
the total elapsed wall-clock time — hence it is non-decreasing along a
run of non-negative deltas, and two runs with the same total wall-clock
time land on the same simulation time no matter how many callbacks each
run comprises. -/
theorem clock_wallclock_driven (start : ℚ) (ds ds' : List ℚ) :
    ((configureClock start).multiplier = 1
      ∧ (configureClock start).clockRange = ClockRangeKind.unbounded
      ∧ (configureClock start).shouldAnimate = true
      ∧ (configureClock start).currentTime = start)
    ∧ (runClock (configureClock start) ds).currentTime = start + ds.sum
    ∧ ((∀ d ∈ ds, 0 ≤ d) → ∀ pre suf, ds = pre ++ suf →
        (runClock (configureClock start) pre).currentTime ≤
          (runClock (configureClock start) ds).currentTime)
    ∧ (ds.sum = ds'.sum →
        (runClock (configureClock start) ds).currentTime =
          (runClock (configureClock start) ds').currentTime) := by
  have hrun : ∀ l : List ℚ, (runClock (configureClock start) l).currentTime = start + l.sum := by
    intro l
    rw [runClock_currentTime l (configureClock start) rfl]
    simp [configureClock]
  refine ⟨⟨rfl, rfl, rfl, rfl⟩, hrun ds, ?_, ?_⟩
  · intro hnn pre suf hsplit
    rw [hrun pre, hrun ds, hsplit, List.sum_append]
    have hsuf : (0 : ℚ) ≤ suf.sum :=
      List.sum_nonneg (fun x hx => hnn x (hsplit ▸ List.mem_append.2 (Or.inr hx)))
    linarith
  · intro hsum
    rw [hrun ds, hrun ds', hsum]
